import Mathlib

/-!
# Verification of the detector multi-object tracker core

Shallow embedding of `src/tracker.cpp` (class `detector::Tracker` and its
nested `Track`), together with the data model of `src/listener.h`
(`BoxBuf`, `TrackBuf`, `Listener::timeout_`).

Conventions of the embedding:
* C++ `double` is embedded as `ℚ`.  All coordinates entering the tracker are
  `unsigned int` pixel values, and every arithmetic operation performed on
  them by the source (`+`, `-`, `*`, `/ 2.0`, matrix products, the 2x2
  inverse) is exact rational arithmetic, so `ℚ` is a faithful model of the
  computed values.  The only irrational operation, `std::sqrt` in
  `Track::getDistance`, is handled by keeping the squared distance
  (`Track.distSq`) in the executable code and stating the source's
  comparison `sqrt(d) <= max_dist` through `Real.sqrt` in the theorems; the
  lemma `gatePass_iff_sqrt` proves the two forms equivalent.
* `unsigned int` counters that can overflow are embedded as `ℕ` with an
  explicit `% 2^32` (see `Tracker.createNewTracks`).
* `std::chrono::steady_clock` timestamps are milliseconds as `ℕ`, passed
  explicitly (`now`) to every operation that calls `now()` in the source.
* Out-of-bounds `std::vector::operator[]` accesses (undefined behaviour in
  the source) make the embedded function return `none`.
* The timed-mutex acquisition in `Tracker::addMessage` is a boolean
  parameter `lockOk`: `true` models `try_lock_for` succeeding within
  `Listener::timeout_` microseconds, `false` models the timeout.
-/

namespace Detector

/-- Model of `BoxBuf::Type` from `src/listener.h`. -/
inductive BoxType
  | kUnknown
  | kPerson
  | kPet
  | kVehicle
deriving DecidableEq, Repr

/-- Model of `BoxBuf` from `src/listener.h`: `{type, id, x, y, w, h}` with
`unsigned int` coordinates.  A value-initialized `BoxBuf` (as produced by
`std::vector::resize`) zero-initializes every field. -/
structure BoxBuf where
  type : BoxType
  id : Nat
  x : Nat
  y : Nat
  w : Nat
  h : Nat
deriving DecidableEq, Repr

/-- The value-initialized `BoxBuf` produced by `std::vector::resize`
growing the vector: all fields zero, `type` is `kUnknown = 0`. -/
def BoxBuf.zeroed : BoxBuf := ⟨BoxType.kUnknown, 0, 0, 0, 0, 0⟩

/-- Detection centroid x: `targets_[k].x + targets_[k].w / 2.0`. -/
def BoxBuf.midx (b : BoxBuf) : ℚ := (b.x : ℚ) + (b.w : ℚ) / 2

/-- Detection centroid y: `targets_[k].y + targets_[k].h / 2.0`. -/
def BoxBuf.midy (b : BoxBuf) : ℚ := (b.y : ℚ) + (b.h : ℚ) / 2

/-- Model of `TrackBuf` from `src/listener.h` (same layout as `BoxBuf`). -/
structure TrackBuf where
  type : BoxType
  id : Nat
  x : Int
  y : Int
  w : Int
  h : Int
deriving DecidableEq, Repr

/-- Value of `std::numeric_limits<unsigned int>::max()`, the scratch-id sentinel
marking a consumed detection in `Tracker::associateTracks`. -/
def sentinel : Nat := 4294967295

/-- Constant `Listener::timeout_` from `src/listener.h`: the timed-lock timeout in
microseconds. -/
def timeoutUs : Nat := 1000

/-- Tracker configuration.  `max_dist_`, `max_time_`, `quiet_` are set by
`Tracker::init`; `target_types_`, `initial_error_`, `measure_variance_`
and `process_variance_` are members declared in the (absent) `tracker.h`
header; the spec lists them among the configuration options
(`target_types`, `initial_error`, `measure_variance`, `process_variance`),
so they are carried here as abstract configuration values. -/
structure Cfg where
  max_dist : ℚ
  max_time : Nat
  target_types : BoxType → Bool
  initial_error : ℚ
  measure_variance : ℚ
  process_variance : ℚ

/-- Model of `Tracker::Track::State` (`kInit` / `kActive`). -/
inductive TrackState
  | kInit
  | kActive
deriving DecidableEq, Repr

/-- Model of `Tracker::Track`: raw box, last-measurement stamp, scratch `touched`
flag, filter state `X_` and covariance `P_`.  The constant matrices `R_`
and `Q_` of the source are `measure_variance · I` and
`process_variance · I`; they are reconstructed from the configuration at
each use instead of being stored. -/
structure Track where
  id : Nat
  type : BoxType
  x : ℚ
  y : ℚ
  w : ℚ
  h : ℚ
  stamp : Nat
  touched : Bool
  state : TrackState
  X : Fin 6 → ℚ
  P : Matrix (Fin 6) (Fin 6) ℚ

/-- The state-transition matrix `Tracker::Track::A_`. -/
def A_ : Matrix (Fin 6) (Fin 6) ℚ :=
  !![1, 0, 1, 0, 0, 0;
     0, 1, 0, 1, 0, 0;
     0, 0, 1, 0, 1, 0;
     0, 0, 0, 1, 0, 1;
     0, 0, 0, 0, 0, 0;
     0, 0, 0, 0, 0, 0]

/-- The measurement matrix `Tracker::Track::H_`. -/
def H_ : Matrix (Fin 2) (Fin 6) ℚ :=
  !![1, 0, 0, 0, 0, 0;
     0, 1, 0, 0, 0, 0]

/-- The `Track` constructor `Track(track_id, box)`: copies the raw box,
stamps `now`, starts `touched`, state `kInit`, `X = (mid, 0, 0, 0, 0)` and
`P = initial_error · I`. -/
def Track.ofBox (cfg : Cfg) (now : Nat) (track_id : Nat) (b : BoxBuf) : Track :=
  { id := track_id
    type := b.type
    x := (b.x : ℚ)
    y := (b.y : ℚ)
    w := (b.w : ℚ)
    h := (b.h : ℚ)
    stamp := now
    touched := true
    state := TrackState.kInit
    X := ![(b.x : ℚ) + (b.w : ℚ) / 2, (b.y : ℚ) + (b.h : ℚ) / 2, 0, 0, 0, 0]
    P := cfg.initial_error • (1 : Matrix (Fin 6) (Fin 6) ℚ) }

/-- Model of `Track::updateTime` (the *predict* step): sets `touched`,
`X ← A·X`, `P ← A·P·Aᵀ + Q`. -/
def Track.updateTime (cfg : Cfg) (t : Track) : Track :=
  { t with
    touched := true
    X := A_.mulVec t.X
    P := A_ * (t.P * A_.transpose) +
      cfg.process_variance • (1 : Matrix (Fin 6) (Fin 6) ℚ) }

/-- The 2x2 inverse computed by Eigen's fixed-size `.inverse()`:
adjugate over determinant. -/
def inv2 (M : Matrix (Fin 2) (Fin 2) ℚ) : Matrix (Fin 2) (Fin 2) ℚ :=
  (M 0 0 * M 1 1 - M 0 1 * M 1 0)⁻¹ •
    !![M 1 1, -(M 0 1); -(M 1 0), M 0 0]

/-- Model of `Track::updateMeasure` (the *correct* step) with measurement `Z`:
`K ← P·Hᵀ·(H·P·Hᵀ + R)⁻¹`, `X ← X + K·(Z − H·X)`, `P ← (I − K·H)·P`. -/
def Track.updateMeasure (cfg : Cfg) (Z : Fin 2 → ℚ) (t : Track) : Track :=
  let K := t.P * H_.transpose *
    inv2 (H_ * t.P * H_.transpose +
      cfg.measure_variance • (1 : Matrix (Fin 2) (Fin 2) ℚ))
  { t with
    X := t.X + K.mulVec (Z - H_.mulVec t.X)
    P := ((1 : Matrix (Fin 6) (Fin 6) ℚ) - K * H_) * t.P }

/-- The squared centroid distance.  `Track::getDistance` returns
`sqrt(pow(mid_x - X_(0), 2) + pow(mid_y - X_(1), 2))`, i.e.
`Real.sqrt (distSq ..)`; the executable embedding keeps the square and the
theorems state the source's `sqrt` form through `gatePass_iff_sqrt`. -/
def Track.distSq (t : Track) (mx my : ℚ) : ℚ :=
  (mx - t.X 0) ^ 2 + (my - t.X 1) ^ 2

/-- The gating test `getDistance(mid_x, mid_y) <= max_dist_` of
`Tracker::associateTracks`, expressed on the squared distance:
`sqrt d ≤ m  ↔  0 ≤ m ∧ d ≤ m²` (proved as `gatePass_iff_sqrt`). -/
def gatePass (cfg : Cfg) (d : ℚ) : Bool :=
  decide (0 ≤ cfg.max_dist ∧ d ≤ cfg.max_dist ^ 2)

/-- The `Init`-branch of `Track::addTarget`: seed the velocity components
`X_(2) = mid_x - X_(0)`, `X_(3) = mid_y - X_(1)`. -/
def Track.seedInit (t : Track) (mx my : ℚ) : Track :=
  { t with
    X := Function.update (Function.update t.X 2 (mx - t.X 0)) 3 (my - t.X 1) }

/-- Model of `Track::addTarget`: stamp `now`, copy the raw box, seed velocity when
still `kInit`, *predict*, promote to `kActive`, then *correct* with the
detection centroid. -/
def Track.addTarget (cfg : Cfg) (now : Nat) (t : Track) (b : BoxBuf) : Track :=
  let t1 : Track :=
    { t with stamp := now, x := (b.x : ℚ), y := (b.y : ℚ),
             w := (b.w : ℚ), h := (b.h : ℚ) }
  let mx : ℚ := t1.x + t1.w / 2
  let my : ℚ := t1.y + t1.h / 2
  let t2 : Track := if t1.state = TrackState.kInit then t1.seedInit mx my else t1
  let t3 : Track := Track.updateTime cfg t2
  let t4 : Track := { t3 with state := TrackState.kActive }
  Track.updateMeasure cfg ![mx, my] t4

/-- The mutable Tracker state: `tracks_`, the `targets_` inbox and the
birth counter `track_cnt_` (an `unsigned int`, hence kept below `2^32`). -/
structure TrackerSt where
  tracks : List Track
  targets : List BoxBuf
  track_cnt : Nat

/-- Model of `Tracker::addMessage`: under the timed lock (`lockOk` models the
`try_lock_for(Listener::timeout_)` outcome) the inbox is
`resize`d to `boxes.size()` and the detections whose category is in
`target_types_` are `copy_if`ed to its front.  `resize` truncates or pads
with value-initialized (`zeroed`) boxes; `copy_if` overwrites only the
first `kept.length` slots, so the tail of the resized vector survives. -/
def Tracker.addMessage (cfg : Cfg) (st : TrackerSt) (boxes : List BoxBuf)
    (lockOk : Bool) : Bool × TrackerSt :=
  if lockOk then
    let resized : List BoxBuf :=
      st.targets.take boxes.length ++
        List.replicate (boxes.length - st.targets.length) BoxBuf.zeroed
    let kept : List BoxBuf := boxes.filter (fun b => cfg.target_types b.type)
    (true, { st with targets := kept ++ resized.drop kept.length })
  else
    (false, st)

/-- Model of `Tracker::untouchTracks`: clear `touched` on every track. -/
def Tracker.untouchTracks (st : TrackerSt) : TrackerSt :=
  { st with tracks := st.tracks.map (fun t => { t with touched := false }) }

/-- The post-solve loop of `Tracker::associateTracks`:

```
for (i = 0; i < assignments.size(); i++) {
  int k = assignments[i];
  mid from targets_[k];                 // no check: k = -1 is out of bounds
  if (tracks_[i].getDistance(mid) <= max_dist_) {
    tracks_[i].addTarget(targets_[k]);
    targets_[k].id = UINT_MAX;
  }
}
```

An out-of-bounds read (`k` negative or past `targets_`, or `i` past
`tracks_`) is undefined behaviour in the source and yields `none` here.
The returned `List (Nat × Nat)` is the log of `(i, k)` pairs for which
`addTarget` was invoked. -/
def Tracker.assocLoop (cfg : Cfg) (now : Nat) :
    List Track → List BoxBuf → Nat → List Int → List (Nat × Nat) →
    Option (List Track × List BoxBuf × List (Nat × Nat))
  | tracks, targets, _, [], log => some (tracks, targets, log)
  | tracks, targets, i, a :: rest, log =>
    if 0 ≤ a ∧ a.toNat < targets.length then
      match targets.get? a.toNat, tracks.get? i with
      | some b, some t =>
        if gatePass cfg (t.distSq b.midx b.midy) then
          Tracker.assocLoop cfg now
            (tracks.set i (Track.addTarget cfg now t b))
            (targets.set a.toNat { b with id := sentinel })
            (i + 1) rest (log ++ [(i, a.toNat)])
        else
          Tracker.assocLoop cfg now tracks targets (i + 1) rest log
      | _, _ => none
    else none

/-- Model of `Tracker::associateTracks`.  The cost matrix (`1e7` sentinel, centroid
distance on matching categories) is consumed only by the third-party
Hungarian solver (`third_party/Hungarian`, not part of the sources), whose
output is therefore taken as the parameter `assign`; `SolverOk` below is
the solver contract modelled from the spec.  After the post-solve loop the
consumed detections (scratch id `UINT_MAX`) are erased. -/
def Tracker.associateTracks (cfg : Cfg) (now : Nat) (assign : List Int)
    (st : TrackerSt) : Option (TrackerSt × List (Nat × Nat)) :=
  if st.tracks.length ≠ 0 ∧ st.targets.length ≠ 0 then
    match Tracker.assocLoop cfg now st.tracks st.targets 0 assign [] with
    | none => none
    | some (tks, tgs, log) =>
      some ({ st with tracks := tks, targets := tgs.filter (fun b => b.id ≠ sentinel) }, log)
  else
    some (st, [])

/-- One birth step of `Tracker::createNewTracks`:
`tracks_.push_back(Track(++track_cnt_, b))`; `track_cnt_` is an
`unsigned int`, so the pre-increment wraps modulo `2^32`. -/
def Tracker.birthStep (cfg : Cfg) (now : Nat) (acc : List Track × Nat)
    (b : BoxBuf) : List Track × Nat :=
  (acc.1 ++ [Track.ofBox cfg now ((acc.2 + 1) % 2 ^ 32) b], (acc.2 + 1) % 2 ^ 32)

/-- Model of `Tracker::createNewTracks`: every surviving detection births
`Track(++track_cnt_, b)`.  Afterwards `targets_` is cleared. -/
def Tracker.createNewTracks (cfg : Cfg) (now : Nat) (st : TrackerSt) : TrackerSt :=
  let fold := st.targets.foldl (Tracker.birthStep cfg now) (st.tracks, st.track_cnt)
  { tracks := fold.1, targets := [], track_cnt := fold.2 }

/-- Model of `Tracker::touchTracks`: *predict* every track that was not touched
this cycle. -/
def Tracker.touchTracks (cfg : Cfg) (st : TrackerSt) : TrackerSt :=
  let tks := st.tracks.map (fun t => if !t.touched then Track.updateTime cfg t else t)
  { st with tracks := tks }

/-- Model of `Tracker::cleanupTracks`: erase every track with
`max_time_ < span.count()`, where `span` is the track age cast to
`duration<unsigned int, std::milli>` — an unsigned 32-bit millisecond
count, so the age is taken modulo `2^32`. -/
def Tracker.cleanupTracks (cfg : Cfg) (now : Nat) (st : TrackerSt) : TrackerSt :=
  let tks := st.tracks.filter
    (fun t => !decide (cfg.max_time < (now - t.stamp) % 2 ^ 32))
  { st with tracks := tks }

/-- The `TrackBuf` posted for a track by `Tracker::postTracks`:
`{type, id, round(x), round(y), round(w), round(h)}`. -/
def Track.toBuf (t : Track) : TrackBuf :=
  ⟨t.type, t.id, round t.x, round t.y, round t.w, round t.h⟩

/-- Model of `Tracker::postTracks`: snapshot the surviving tracks into the
outbound track-list handed to the encoder. -/
def Tracker.postTracks (st : TrackerSt) : List TrackBuf :=
  st.tracks.map Track.toBuf

/-- One `Tracker::running` tick with `tracker_on_` set (state mutation
part).  Under the `targets_` lock: when the inbox is non-empty run
untouch → associate → create → touch, then always cleanup.  Besides the
new state it returns the association log (the `(i, k)` pairs fused by
`addTarget`) and the ids born in `createNewTracks` — both are read off
from the intermediate states, the source mutates in place. -/
def Tracker.runningSt (cfg : Cfg) (now : Nat) (assign : List Int)
    (st : TrackerSt) : Option (TrackerSt × List (Nat × Nat) × List Nat) :=
  if st.targets.length ≠ 0 then
    match Tracker.associateTracks cfg now assign (Tracker.untouchTracks st) with
    | none => none
    | some (st2, log) =>
      let st3 := Tracker.createNewTracks cfg now st2
      let born := (st3.tracks.drop st2.tracks.length).map Track.id
      some (Tracker.cleanupTracks cfg now (Tracker.touchTracks cfg st3), log, born)
  else
    some (Tracker.cleanupTracks cfg now st, [], [])

/-- One full `Tracker::running` tick: state mutation plus the track-list
posted to the encoder by `postTracks`. -/
def Tracker.runningTick (cfg : Cfg) (now : Nat) (assign : List Int)
    (st : TrackerSt) :
    Option (TrackerSt × List (Nat × Nat) × List Nat × List TrackBuf) :=
  (Tracker.runningSt cfg now assign st).map
    (fun r => (r.1, r.2.1, r.2.2, Tracker.postTracks r.1))

/-- Modelled from the spec: the contract of the third-party Hungarian
solver (`third_party/Hungarian`, whose source is not in the repository
snapshot).  For a `T × D` cost matrix it returns `assign` of length `T`
with `assign[i] ∈ {-1, 0..D-1}`, `-1` meaning row `i` got no column;
non-negative entries are pairwise distinct (a matching); and when
`T ≤ D` the virtual-dummy padding matches every row, so no entry is
`-1`. -/
def SolverOk (T D : Nat) (assign : List Int) : Prop :=
  assign.length = T ∧
  (∀ a ∈ assign, a = -1 ∨ (0 ≤ a ∧ a.toNat < D)) ∧
  List.Pairwise (fun a b => a = -1 ∨ b = -1 ∨ a ≠ b) assign ∧
  (T ≤ D → ∀ a ∈ assign, a ≠ -1)

instance (T D : Nat) (assign : List Int) : Decidable (SolverOk T D assign) := by
  unfold SolverOk; infer_instance

/-- One input frame for a run of the Tracker: the detections pushed by the
inference stage (with the lock outcome of its `addMessage` call), the
Hungarian output consumed by the next `running` tick, and that tick's
monotonic clock in milliseconds. -/
structure Frame where
  boxes : List BoxBuf
  lockOk : Bool
  assign : List Int
  now : Nat

/-- A sequence of frames processed by one Tracker instance: each frame is
ingested by `addMessage` and then one `running` tick executes.  Returns
the final state and the concatenated list of ids given to tracks at
birth, in creation order. -/
def Tracker.runTicks (cfg : Cfg) : TrackerSt → List Frame → Option (TrackerSt × List Nat)
  | st, [] => some (st, [])
  | st, f :: rest =>
    match Tracker.runningSt cfg f.now f.assign (Tracker.addMessage cfg st f.boxes f.lockOk).2 with
    | none => none
    | some (st2, _, born) =>
      match Tracker.runTicks cfg st2 rest with
      | none => none
      | some (st3, borns) => some (st3, born ++ borns)

/-! ### Concrete data used by counterexamples and witnesses -/

/-- Example configuration: gate 10 px, age-out 1000 ms, every category
tracked, unit filter covariances. -/
def cfgEx : Cfg := ⟨10, 1000, fun _ => true, 1, 1, 1⟩

/-- Example configuration tracking only `kPerson`. -/
def cfgPerson : Cfg := ⟨10, 1000, fun ty => decide (ty = BoxType.kPerson), 1, 1, 1⟩

/-- A `Person` detection box at `(100,100,20,40)` (centroid `(110,120)`). -/
def pBox : BoxBuf := ⟨BoxType.kPerson, 7, 100, 100, 20, 40⟩

/-- A `Vehicle` detection box at the identical location `(100,100,20,40)`. -/
def vBox : BoxBuf := ⟨BoxType.kVehicle, 8, 100, 100, 20, 40⟩

/-- A `Person` detection box far away at `(300,300,20,40)`. -/
def farBox : BoxBuf := ⟨BoxType.kPerson, 9, 300, 300, 20, 40⟩

/-- C1 scenario: one `Person` track (born at time 0 from `pBox`) and one
`Vehicle` detection at the identical location in the inbox. -/
def stC1 : TrackerSt := ⟨[Track.ofBox cfgEx 0 1 pBox], [vBox], 1⟩

/-- The C1 track as it enters association, after `untouchTracks`. -/
def tC1u : Track := { Track.ofBox cfgEx 0 1 pBox with touched := false }

/-- C2 scenario: two `Person` tracks, a single `Person` detection. -/
def stC2 : TrackerSt := ⟨[Track.ofBox cfgEx 0 1 pBox, Track.ofBox cfgEx 0 2 farBox], [pBox], 2⟩

/-- The empty tracker state. -/
def stEmpty : TrackerSt := ⟨[], [], 0⟩

/-- C4 scenario: one `Active` track with filtered position `(110,120)` and
velocity `(5,0)`, last measured at time 0; the inbox is empty. -/
def tC4 : Track :=
  { id := 1, type := BoxType.kPerson, x := 100, y := 100, w := 20, h := 40,
    stamp := 0, touched := true, state := TrackState.kActive,
    X := ![110, 120, 5, 0, 0, 0], P := 1 }

/-- C4 scenario state. -/
def stC4 : TrackerSt := ⟨[tC4], [], 1⟩

/-- C8 driver configuration: `max_time = 0` so that a track ages out on
the first tick on which it receives no measurement. -/
def cfg8 : Cfg := ⟨10, 0, fun _ => true, 1, 1, 1⟩

/-- The detection fed on every even tick of the C8 driver. -/
def det8 : BoxBuf := ⟨BoxType.kPerson, 0, 100, 100, 20, 40⟩

/-- Even tick of the C8 driver (cycle `k`): ingest `[det8]`, run at time
`2000k`.  Starting from an empty track list this births exactly one
track. -/
def c8even (k : Nat) (st : TrackerSt) : Option TrackerSt :=
  (Tracker.runningSt cfg8 (2000 * k) []
    (Tracker.addMessage cfg8 st [det8] true).2).map (fun r => r.1)

/-- Odd tick of the C8 driver (cycle `k`): ingest nothing, run at time
`2000k + 1000`; with `max_time = 0` the cycle's track ages out. -/
def c8odd (k : Nat) (st : TrackerSt) : Option TrackerSt :=
  (Tracker.runningSt cfg8 (2000 * k + 1000) []
    (Tracker.addMessage cfg8 st [] true).2).map (fun r => r.1)

/-- State of the C8 driver after `k` complete two-tick cycles, starting
from the empty tracker. -/
def c8state : Nat → Option TrackerSt
  | 0 => some stEmpty
  | k + 1 => (c8state k).bind (fun st => (c8even k st).bind (c8odd k))

/-- The id born on the even tick of cycle `k` of the C8 driver. -/
def c8bornId (k : Nat) : Option Nat :=
  (c8state k).bind (fun st =>
    (Tracker.runningSt cfg8 (2000 * k) []
      (Tracker.addMessage cfg8 st [det8] true).2).bind (fun r => r.2.2.head?))

/-! ## Theorems -/

/-- The squared centroid distance is non-negative. -/
theorem Track.distSq_nonneg (t : Track) (mx my : ℚ) : 0 ≤ t.distSq mx my := by
  unfold Track.distSq; positivity

/-- The executable gate `gatePass` is exactly the source's comparison
`sqrt(distSq) <= max_dist` (as real numbers). -/
theorem gatePass_iff_sqrt (cfg : Cfg) (d : ℚ) :
    gatePass cfg d = true ↔ Real.sqrt (d : ℝ) ≤ (cfg.max_dist : ℝ) := by
  unfold gatePass
  rw [Real.sqrt_le_iff]
  simp only [decide_eq_true_eq]
  constructor
  · rintro ⟨h0, h1⟩
    exact ⟨by exact_mod_cast h0, by exact_mod_cast h1⟩
  · rintro ⟨h0, h1⟩
    exact ⟨by exact_mod_cast h0, by exact_mod_cast h1⟩

/-- Evaluation of a six-entry vector literal at index 5 (the simp set
stops at `cons_val_four`). -/
theorem cons_val_five {α : Type} (x : α) (u : Fin 5 → α) :
    Matrix.vecCons x u 5 = u 4 := rfl

/-- Rows 0 and 1 of `A·v`: position advances by velocity; rows 2 and 3:
velocity advances by acceleration; rows 4 and 5 are zeroed. -/
theorem A_mulVec (v : Fin 6 → ℚ) :
    A_.mulVec v = ![v 0 + v 2, v 1 + v 3, v 2 + v 4, v 3 + v 5, 0, 0] := by
  funext i
  fin_cases i <;>
    simp [A_, Matrix.mulVec, Matrix.dotProduct, Fin.sum_univ_six,
      Matrix.vecHead, Matrix.vecTail, cons_val_five]

/-- C10: if the `targets_` lock cannot be acquired within the
`Listener::timeout_` of 1000 microseconds (modelled by `lockOk = false`),
`Tracker::addMessage` returns `false` and leaves the whole tracker state
unchanged. -/
theorem c10_addMessage_timeout_no_side_effects (cfg : Cfg) (st : TrackerSt)
    (boxes : List BoxBuf) :
    Tracker.addMessage cfg st boxes false = (false, st) ∧ timeoutUs = 1000 :=
  ⟨rfl, rfl⟩

/-- C3 counterexample: with `target_types = {Person}`, ingesting a single
`Vehicle` detection from the empty state returns `true` but leaves a
value-initialized `BoxBuf` in `targets_` (the un-truncated `resize` tail),
whereas the claim demands `targets_` equal the filtered batch, i.e. `[]`. -/
theorem c3_counterexample :
    (Tracker.addMessage cfgPerson stEmpty [vBox] true).1 = true ∧
    [vBox].filter (fun b => cfgPerson.target_types b.type) = [] ∧
    (Tracker.addMessage cfgPerson stEmpty [vBox] true).2.targets = [BoxBuf.zeroed] ∧
    ([BoxBuf.zeroed] : List BoxBuf) ≠ [] :=
  ⟨rfl, rfl, rfl, by decide⟩

/-- C3 amended: on a successful `addMessage(boxes)` the inbox is resized
to `boxes.size()` and the detections of a tracked category form its
prefix, in input order; the tail beyond that prefix is `resize` residue
(old entries or value-initialized boxes), not truncated.  No other
tracker state changes. -/
theorem c3_addMessage_filtered_front (cfg : Cfg) (st : TrackerSt)
    (boxes : List BoxBuf) :
    (Tracker.addMessage cfg st boxes true).1 = true ∧
    (Tracker.addMessage cfg st boxes true).2.targets.length = boxes.length ∧
    (Tracker.addMessage cfg st boxes true).2.targets.take
        (boxes.filter (fun b => cfg.target_types b.type)).length
      = boxes.filter (fun b => cfg.target_types b.type) ∧
    (Tracker.addMessage cfg st boxes true).2.tracks = st.tracks ∧
    (Tracker.addMessage cfg st boxes true).2.track_cnt = st.track_cnt := by
  have hk : (boxes.filter (fun b => cfg.target_types b.type)).length ≤ boxes.length :=
    List.length_filter_le _ _
  refine ⟨rfl, ?_, ?_, rfl, rfl⟩
  · show ((boxes.filter _) ++ (_ ++ List.replicate _ _).drop _).length = _
    simp only [List.length_append, List.length_drop, List.length_take,
      List.length_replicate]
    omega
  · show ((boxes.filter _) ++ _).take _ = _
    exact List.take_left _ _

/-- C9: for a track still in state `Init`, `addTarget` first copies the
raw box and seeds the velocity `X[2..3]` with the single-frame delta
`(mid − X[0..1])`, then predicts — which lands the position exactly on
the detection centroid — then promotes to `Active` and corrects.  Once
`Active`, every operation leaves the track `Active`. -/
theorem c9_init_velocity_seeding (cfg : Cfg) (now : Nat) (t : Track) (b : BoxBuf)
    (h : t.state = TrackState.kInit) :
    Track.addTarget cfg now t b =
      Track.updateMeasure cfg ![b.midx, b.midy]
        { Track.updateTime cfg
            (Track.seedInit
              { t with stamp := now, x := (b.x : ℚ), y := (b.y : ℚ),
                       w := (b.w : ℚ), h := (b.h : ℚ) } b.midx b.midy)
          with state := TrackState.kActive } ∧
    (∀ (u : Track) (mx my : ℚ),
      (u.seedInit mx my).X 2 = mx - u.X 0 ∧
      (u.seedInit mx my).X 3 = my - u.X 1 ∧
      (u.seedInit mx my).X 0 = u.X 0 ∧
      (u.seedInit mx my).X 1 = u.X 1 ∧
      (Track.updateTime cfg (u.seedInit mx my)).X 0 = mx ∧
      (Track.updateTime cfg (u.seedInit mx my)).X 1 = my) ∧
    (Track.addTarget cfg now t b).state = TrackState.kActive ∧
    (∀ u : Track, u.state = TrackState.kActive →
      (Track.updateTime cfg u).state = TrackState.kActive ∧
      (∀ Z, (Track.updateMeasure cfg Z u).state = TrackState.kActive) ∧
      (∀ (now2 : Nat) (b2 : BoxBuf),
        (Track.addTarget cfg now2 u b2).state = TrackState.kActive)) := by
  refine ⟨?_, ?_, rfl, ?_⟩
  · obtain ⟨tid, tty, tx, tyy, tw, th, tst, ttc, tstate, tX, tP⟩ := t
    cases h
    rfl
  · intro u mx my
    have h2 : (u.seedInit mx my).X 2 = mx - u.X 0 := by
      simp [Track.seedInit, Function.update]
    have h3 : (u.seedInit mx my).X 3 = my - u.X 1 := by
      simp [Track.seedInit, Function.update]
    have h0 : (u.seedInit mx my).X 0 = u.X 0 := by
      simp [Track.seedInit, Function.update]
    have h1 : (u.seedInit mx my).X 1 = u.X 1 := by
      simp [Track.seedInit, Function.update]
    refine ⟨h2, h3, h0, h1, ?_, ?_⟩
    · show (A_.mulVec (u.seedInit mx my).X) 0 = mx
      rw [A_mulVec]
      show (u.seedInit mx my).X 0 + (u.seedInit mx my).X 2 = mx
      rw [h0, h2]; ring
    · show (A_.mulVec (u.seedInit mx my).X) 1 = my
      rw [A_mulVec]
      show (u.seedInit mx my).X 1 + (u.seedInit mx my).X 3 = my
      rw [h1, h3]; ring
  · intro u hu
    have h1 : (Track.updateTime cfg u).state = u.state := rfl
    have h2 : ∀ Z, (Track.updateMeasure cfg Z u).state = u.state := fun _ => rfl
    exact ⟨h1.trans hu, fun Z => (h2 Z).trans hu, fun _ _ => rfl⟩

/-- C9 witness: a freshly created track is in state `Init`, and fusing a
detection into it leaves it `Active`. -/
theorem c9_init_velocity_seeding_witness :
    (Track.ofBox cfgEx 0 1 pBox).state = TrackState.kInit ∧
    (Track.addTarget cfgEx 5 (Track.ofBox cfgEx 0 1 pBox) pBox).state =
      TrackState.kActive :=
  ⟨rfl, (c9_init_velocity_seeding cfgEx 5 (Track.ofBox cfgEx 0 1 pBox) pBox rfl).2.2.1⟩

/-- Marking a detection consumed (scratch id := `UINT_MAX`) does not change
its centroid. -/
theorem midx_mark (b : BoxBuf) :
    BoxBuf.midx { b with id := sentinel } = b.midx := rfl

/-- Marking a detection consumed does not change its centroid. -/
theorem midy_mark (b : BoxBuf) :
    BoxBuf.midy { b with id := sentinel } = b.midy := rfl

/-- Lemma: `Track::addTarget` never reads the detection's scratch id. -/
theorem addTarget_mark (cfg : Cfg) (now : Nat) (t : Track) (b : BoxBuf) :
    Track.addTarget cfg now t { b with id := sentinel } =
      Track.addTarget cfg now t b := rfl

/-- Marking a consumed detection twice is the same as marking it once. -/
theorem mark_mark (b : BoxBuf) :
    ({ { b with id := sentinel } with id := sentinel } : BoxBuf) =
      { b with id := sentinel } := rfl

/-- Membership in the track list after `cleanupTracks`: survivors are
exactly the tracks whose 32-bit wrapped age is at most `max_time`. -/
theorem mem_cleanupTracks (cfg : Cfg) (now : Nat) (st : TrackerSt) (t : Track) :
    t ∈ (Tracker.cleanupTracks cfg now st).tracks ↔
      t ∈ st.tracks ∧ (now - t.stamp) % 2 ^ 32 ≤ cfg.max_time := by
  show t ∈ st.tracks.filter _ ↔ _
  rw [List.mem_filter]
  simp [not_lt]

/-- Master invariant of the post-solve loop of `associateTracks`.  When
the loop completes without an out-of-bounds access, the log grew by a list
`ext` of `(row, column)` fusion records such that: rows are strictly
increasing; each record stems from a non-negative assignment entry for its
row; each recorded fusion passed the gate against the loop's entry state
and left `addTarget`'s result at its row and the marked detection at its
column; and rows/columns without a record are untouched. -/
theorem assocLoop_spec (cfg : Cfg) (now : Nat) :
    ∀ (rest : List Int) (tracks : List Track) (targets : List BoxBuf)
      (i : Nat) (log0 : List (Nat × Nat))
      (tks : List Track) (tgs : List BoxBuf) (log : List (Nat × Nat)),
      Tracker.assocLoop cfg now tracks targets i rest log0 = some (tks, tgs, log) →
      ∃ ext : List (Nat × Nat),
        log = log0 ++ ext ∧
        tks.length = tracks.length ∧
        tgs.length = targets.length ∧
        List.Pairwise (fun p q => p.1 < q.1) ext ∧
        (∀ p ∈ ext, i ≤ p.1 ∧
          (∃ a : Int, rest.get? (p.1 - i) = some a ∧ 0 ≤ a ∧ a.toNat = p.2) ∧
          (∃ t b, tracks.get? p.1 = some t ∧ targets.get? p.2 = some b ∧
            gatePass cfg (t.distSq b.midx b.midy) = true ∧
            tks.get? p.1 = some (Track.addTarget cfg now t b) ∧
            tgs.get? p.2 = some { b with id := sentinel })) ∧
        (∀ j, (∀ c, (j, c) ∉ ext) → tks.get? j = tracks.get? j) ∧
        (∀ k, (∀ r2, (r2, k) ∉ ext) → tgs.get? k = targets.get? k) := by
  intro rest
  induction rest with
  | nil =>
    intro tracks targets i log0 tks tgs log h
    simp only [Tracker.assocLoop, Option.some.injEq, Prod.mk.injEq] at h
    obtain ⟨h1, h2, h3⟩ := h
    subst h1; subst h2; subst h3
    exact ⟨[], by simp, rfl, rfl, List.Pairwise.nil, by simp, fun _ _ => rfl,
      fun _ _ => rfl⟩
  | cons a rest ih =>
    intro tracks targets i log0 tks tgs log h
    rw [Tracker.assocLoop] at h
    by_cases hcond : 0 ≤ a ∧ a.toNat < targets.length
    swap
    · rw [if_neg hcond] at h; exact absurd h (by simp)
    rw [if_pos hcond] at h
    obtain ⟨ha, hlt⟩ := hcond
    obtain ⟨b, hb⟩ : ∃ b, targets.get? a.toNat = some b :=
      ⟨_, List.get?_eq_get hlt⟩
    rw [hb] at h
    cases ht : tracks.get? i with
    | none => rw [ht] at h; exact absurd h (by simp)
    | some t =>
    rw [ht] at h
    dsimp only at h
    by_cases hg : gatePass cfg (t.distSq b.midx b.midy) = true
    · rw [if_pos hg] at h
      obtain ⟨ext', hlog, hlen1, hlen2, hpw, hrec, hrow, hcol⟩ :=
        ih (tracks.set i (Track.addTarget cfg now t b))
          (targets.set a.toNat { b with id := sentinel })
          (i + 1) (log0 ++ [(i, a.toNat)]) tks tgs log h
      have hextrow : ∀ p ∈ ext', i + 1 ≤ p.1 := fun p hp => (hrec p hp).1
      have hi_lt : i < tracks.length := List.get?_eq_some.mp ht |>.1 |> fun hh =>
        (List.get?_eq_some.mp ht).choose
      refine ⟨(i, a.toNat) :: ext', by simpa using hlog, by simpa using hlen1,
        by simpa using hlen2, ?_, ?_, ?_, ?_⟩
      · exact List.Pairwise.cons
          (fun q hq => lt_of_lt_of_le (Nat.lt_succ_self i) (hextrow q hq)) hpw
      · intro p hp
        rcases List.mem_cons.mp hp with rfl | hp'
        · refine ⟨le_refl i, ⟨a, by simp, ha, rfl⟩, t, b, ht, hb, hg, ?_, ?_⟩
          · have hne : ∀ c, (i, c) ∉ ext' := by
              intro c hmem
              exact absurd (hextrow _ hmem) (by omega)
            rw [hrow i hne]
            exact List.get?_set_eq_of_lt _ (by
              exact (List.get?_eq_some.mp ht).choose)
          · by_cases hk : ∀ r2, (r2, a.toNat) ∉ ext'
            · rw [hcol _ hk]
              exact List.get?_set_eq_of_lt _ hlt
            · push_neg at hk
              obtain ⟨r2, hr2⟩ := hk
              obtain ⟨_, _, t2, b2, _, hb2, _, _, hmark⟩ := hrec _ hr2
              have hb2' : b2 = { b with id := sentinel } := by
                rw [List.get?_set_eq_of_lt _ hlt] at hb2
                exact (Option.some.inj hb2).symm
              rw [hb2'] at hmark
              rwa [mark_mark] at hmark
        · obtain ⟨hge, ⟨a2, ha2, ha2n, ha2t⟩, t2, b2, ht2, hb2, hg2, hres, hmark⟩ :=
            hrec p hp'
          have hge' : i ≤ p.1 := le_trans (Nat.le_succ i) hge
          refine ⟨hge', ⟨a2, ?_, ha2n, ha2t⟩, ?_⟩
          · have : p.1 - i = (p.1 - (i + 1)) + 1 := by omega
            rw [this, List.get?_cons_succ]
            exact ha2
          · have hne : p.1 ≠ i := by omega
            rw [List.get?_set_ne _ _ (Ne.symm hne)] at ht2
            by_cases hkk : p.2 = a.toNat
            · rw [hkk] at hb2 hmark ⊢
              rw [List.get?_set_eq_of_lt _ hlt] at hb2
              have hb2' : b2 = { b with id := sentinel } := (Option.some.inj hb2).symm
              rw [hb2'] at hg2 hres hmark
              refine ⟨t2, b, ht2, hb, ?_, ?_, ?_⟩
              · rwa [midx_mark, midy_mark] at hg2
              · rwa [addTarget_mark] at hres
              · rwa [mark_mark] at hmark
            · rw [List.get?_set_ne _ _ (fun hh => hkk hh.symm)] at hb2
              exact ⟨t2, b2, ht2, hb2, hg2, hres, hmark⟩
      · intro j hj
        have hj' : ∀ c, (j, c) ∉ ext' := fun c hc =>
          hj c (List.mem_cons_of_mem _ hc)
        have hji : j ≠ i := fun hh =>
          hj a.toNat (hh ▸ List.mem_cons_self _ _)
        rw [hrow j hj', List.get?_set_ne _ _ (fun hh => hji hh.symm)]
      · intro k hk
        have hk' : ∀ r2, (r2, k) ∉ ext' := fun r2 hc =>
          hk r2 (List.mem_cons_of_mem _ hc)
        have hkk : k ≠ a.toNat := fun hh =>
          hk i (by rw [hh]; exact List.mem_cons_self _ _)
        rw [hcol k hk', List.get?_set_ne _ _ (fun hh => hkk hh.symm)]
    · rw [if_neg hg] at h
      obtain ⟨ext', hlog, hlen1, hlen2, hpw, hrec, hrow, hcol⟩ :=
        ih tracks targets (i + 1) log0 tks tgs log h
      refine ⟨ext', hlog, hlen1, hlen2, hpw, ?_, hrow, hcol⟩
      intro p hp
      obtain ⟨hge, ⟨a2, ha2, ha2n, ha2t⟩, hrest⟩ := hrec p hp
      refine ⟨le_trans (Nat.le_succ i) hge, ⟨a2, ?_, ha2n, ha2t⟩, hrest⟩
      have : p.1 - i = (p.1 - (i + 1)) + 1 := by omega
      rw [this, List.get?_cons_succ]
      exact ha2

/-- Facts about one completed `associateTracks` call: the birth counter is
untouched; the track list keeps its length; the fusion log has strictly
increasing rows, each backed by a non-negative assignment entry and a
passed gate against the pre-association state; unlogged tracks are
unchanged; unlogged, unmarked detections survive the compaction. -/
theorem associateTracks_spec (cfg : Cfg) (now : Nat) (assign : List Int)
    (st st2 : TrackerSt) (log : List (Nat × Nat))
    (h : Tracker.associateTracks cfg now assign st = some (st2, log)) :
    st2.track_cnt = st.track_cnt ∧
    st2.tracks.length = st.tracks.length ∧
    List.Pairwise (fun p q => p.1 < q.1) log ∧
    (∀ p ∈ log,
      (∃ a : Int, assign.get? p.1 = some a ∧ 0 ≤ a ∧ a.toNat = p.2) ∧
      (∃ t b, st.tracks.get? p.1 = some t ∧ st.targets.get? p.2 = some b ∧
        gatePass cfg (t.distSq b.midx b.midy) = true ∧
        st2.tracks.get? p.1 = some (Track.addTarget cfg now t b))) ∧
    (∀ j, (∀ c, (j, c) ∉ log) → st2.tracks.get? j = st.tracks.get? j) ∧
    (∀ k b, (∀ r2, (r2, k) ∉ log) → st.targets.get? k = some b →
      b.id ≠ sentinel → b ∈ st2.targets) := by
  unfold Tracker.associateTracks at h
  by_cases hcond : st.tracks.length ≠ 0 ∧ st.targets.length ≠ 0
  · rw [if_pos hcond] at h
    cases hl : Tracker.assocLoop cfg now st.tracks st.targets 0 assign [] with
    | none => rw [hl] at h; exact absurd h (by simp)
    | some res =>
      obtain ⟨tks, tgs, lg⟩ := res
      rw [hl] at h
      dsimp only at h
      rw [Option.some.injEq, Prod.mk.injEq] at h
      obtain ⟨h1, h2⟩ := h
      subst h2
      subst h1
      obtain ⟨ext, hlog, hlen1, hlen2, _hpw, hrec, hrow, hcol⟩ :=
        assocLoop_spec cfg now assign st.tracks st.targets 0 [] tks tgs lg hl
      rw [List.nil_append] at hlog
      subst hlog
      refine ⟨rfl, hlen1, _hpw, ?_, ?_, ?_⟩
      · intro p hp
        obtain ⟨_, ⟨a, ha, han, hat⟩, t, b, ht, hb, hg, hres, _⟩ := hrec p hp
        rw [Nat.sub_zero] at ha
        exact ⟨⟨a, ha, han, hat⟩, t, b, ht, hb, hg, hres⟩
      · exact hrow
      · intro k b hnol hget hid
        have : tgs.get? k = some b := (hcol k hnol).trans hget
        have hmem : b ∈ tgs := List.get?_mem this
        show b ∈ tgs.filter _
        rw [List.mem_filter]
        exact ⟨hmem, by simpa using hid⟩
  · rw [if_neg hcond] at h
    rw [Option.some.injEq, Prod.mk.injEq] at h
    obtain ⟨h1, h2⟩ := h
    subst h2
    subst h1
    refine ⟨rfl, rfl, List.Pairwise.nil, by simp, fun _ _ => rfl, ?_⟩
    intro k b _ hget _
    exact List.get?_mem hget

/-- The track list built by the birth fold is the accumulator followed by
the newborn tracks, one per detection. -/
theorem createFold_shape (cfg : Cfg) (now : Nat) :
    ∀ (l : List BoxBuf) (ts : List Track) (c : Nat),
      ∃ new : List Track,
        (l.foldl (Tracker.birthStep cfg now) (ts, c)).1 = ts ++ new ∧
        new.length = l.length := by
  intro l
  induction l with
  | nil => exact fun ts c => ⟨[], by simp, rfl⟩
  | cons b l ih =>
    intro ts c
    obtain ⟨new, hnew, hlen⟩ :=
      ih (ts ++ [Track.ofBox cfg now ((c + 1) % 2 ^ 32) b]) ((c + 1) % 2 ^ 32)
    refine ⟨Track.ofBox cfg now ((c + 1) % 2 ^ 32) b :: new, ?_, by simp [hlen]⟩
    show (l.foldl (Tracker.birthStep cfg now)
      (ts ++ [Track.ofBox cfg now ((c + 1) % 2 ^ 32) b], (c + 1) % 2 ^ 32)).1 = _
    rw [hnew, List.append_assoc]
    rfl

/-- While the birth counter stays below `2^32`, the ids given by the birth
fold are the consecutive integers `c+1, …, c+l.length` and the counter
ends at `c + l.length`. -/
theorem createFold_ids (cfg : Cfg) (now : Nat) :
    ∀ (l : List BoxBuf) (ts : List Track) (c : Nat),
      c + l.length < 2 ^ 32 →
      (l.foldl (Tracker.birthStep cfg now) (ts, c)).2 = c + l.length ∧
      (l.foldl (Tracker.birthStep cfg now) (ts, c)).1.map Track.id =
        ts.map Track.id ++ List.range' (c + 1) l.length := by
  intro l
  induction l with
  | nil => exact fun ts c _ => ⟨rfl, by simp⟩
  | cons b l ih =>
    intro ts c hb
    have hmod : (c + 1) % 2 ^ 32 = c + 1 := Nat.mod_eq_of_lt (by simp at hb; omega)
    obtain ⟨ih2, ih1⟩ :=
      ih (ts ++ [Track.ofBox cfg now ((c + 1) % 2 ^ 32) b]) ((c + 1) % 2 ^ 32)
        (by simp at hb ⊢; omega)
    constructor
    · show (l.foldl (Tracker.birthStep cfg now)
        (ts ++ [Track.ofBox cfg now ((c + 1) % 2 ^ 32) b], (c + 1) % 2 ^ 32)).2 = _
      rw [ih2, hmod]
      simp; omega
    · show (l.foldl (Tracker.birthStep cfg now)
        (ts ++ [Track.ofBox cfg now ((c + 1) % 2 ^ 32) b], (c + 1) % 2 ^ 32)).1.map _ = _
      rw [ih1, hmod]
      rw [List.map_append, List.append_assoc]
      show ts.map Track.id ++ ([c + 1] ++ List.range' (c + 1 + 1) l.length) = _
      rw [List.length_cons, List.range'_succ]
      rfl

/-- Case analysis of one `running` tick: with an empty inbox only cleanup
runs; otherwise the untouch → associate → create → touch → cleanup chain
runs, the log is the association log and the born ids are read off the
`createNewTracks` suffix. -/
theorem runningSt_cases (cfg : Cfg) (now : Nat) (assign : List Int)
    (st st' : TrackerSt) (log : List (Nat × Nat)) (born : List Nat)
    (h : Tracker.runningSt cfg now assign st = some (st', log, born)) :
    (st.targets.length = 0 ∧ st' = Tracker.cleanupTracks cfg now st ∧
      log = [] ∧ born = []) ∨
    (st.targets.length ≠ 0 ∧ ∃ st2 : TrackerSt,
      Tracker.associateTracks cfg now assign (Tracker.untouchTracks st) =
        some (st2, log) ∧
      st' = Tracker.cleanupTracks cfg now
        (Tracker.touchTracks cfg (Tracker.createNewTracks cfg now st2)) ∧
      born = ((Tracker.createNewTracks cfg now st2).tracks.drop
        st2.tracks.length).map Track.id) := by
  unfold Tracker.runningSt at h
  by_cases hne : st.targets.length ≠ 0
  · rw [if_pos hne] at h
    cases ha : Tracker.associateTracks cfg now assign (Tracker.untouchTracks st) with
    | none => rw [ha] at h; exact absurd h (by simp)
    | some res =>
      obtain ⟨st2, lg⟩ := res
      rw [ha] at h
      dsimp only at h
      rw [Option.some.injEq, Prod.mk.injEq, Prod.mk.injEq] at h
      obtain ⟨h1, h2, h3⟩ := h
      subst h1; subst h2; subst h3
      exact Or.inr ⟨hne, st2, rfl, rfl, rfl⟩
  · rw [if_neg hne] at h
    rw [Option.some.injEq, Prod.mk.injEq, Prod.mk.injEq] at h
    obtain ⟨h1, h2, h3⟩ := h
    exact Or.inl ⟨by omega, h1.symm, h2.symm, h3.symm⟩

/-- Born ids of one tick: while the counter stays below `2^32`, one
`running` tick births the consecutive ids following the current counter
and advances the counter by the number of births. -/
theorem runningSt_born (cfg : Cfg) (now : Nat) (assign : List Int)
    (st st' : TrackerSt) (log : List (Nat × Nat)) (born : List Nat)
    (h : Tracker.runningSt cfg now assign st = some (st', log, born))
    (hbound : st.track_cnt + born.length < 2 ^ 32) :
    born = List.range' (st.track_cnt + 1) born.length ∧
    st'.track_cnt = st.track_cnt + born.length := by
  rcases runningSt_cases cfg now assign st st' log born h with
    ⟨_, hst, _, hb⟩ | ⟨_, st2, ha, hst, hborn⟩
  · subst hb
    refine ⟨rfl, ?_⟩
    rw [hst]
    rfl
  · have hcnt2 : st2.track_cnt = st.track_cnt :=
      (associateTracks_spec cfg now assign _ _ _ ha).1
    obtain ⟨new, hnew, hlen⟩ := createFold_shape cfg now st2.targets st2.tracks st2.track_cnt
    have hdrop : (Tracker.createNewTracks cfg now st2).tracks.drop st2.tracks.length = new := by
      show ((st2.targets.foldl (Tracker.birthStep cfg now) (st2.tracks, st2.track_cnt)).1).drop _ = new
      rw [hnew, List.drop_left]
    have hblen : born.length = st2.targets.length := by
      rw [hborn, hdrop, List.length_map, hlen]
    obtain ⟨hc2, hmap⟩ := createFold_ids cfg now st2.targets st2.tracks st2.track_cnt
      (by rw [hcnt2, ← hblen]; exact hbound)
    have hmap2 : (st2.tracks ++ new).map Track.id =
        st2.tracks.map Track.id ++ List.range' (st2.track_cnt + 1) st2.targets.length := by
      rw [← hnew]; exact hmap
    rw [List.map_append] at hmap2
    have hnewmap : new.map Track.id = List.range' (st2.track_cnt + 1) st2.targets.length :=
      List.append_cancel_left hmap2
    constructor
    · have hfin : born = List.range' (st.track_cnt + 1) st2.targets.length := by
        rw [hborn, hdrop, hnewmap, hcnt2]
      rw [hfin]
      simp [List.length_range']
    · rw [hst]
      show (st2.targets.foldl (Tracker.birthStep cfg now) (st2.tracks, st2.track_cnt)).2 = _
      rw [hc2, hcnt2, hblen]

/-- C4 counterexample: a `Running` tick with empty `targets` leaves the
(stale-fresh) track's filter state entirely unchanged — zero *predict*
steps — whereas one `predict` step would have moved `X[0]` from 110 to
115. -/
theorem c4_counterexample :
    Tracker.runningSt cfgEx 500 [] stC4 = some (stC4, [], []) ∧
    (Track.updateTime cfgEx tC4).X 0 ≠ tC4.X 0 := by
  refine ⟨rfl, ?_⟩
  rw [show (Track.updateTime cfgEx tC4).X = A_.mulVec tC4.X from rfl, A_mulVec]
  show tC4.X 0 + tC4.X 2 ≠ tC4.X 0
  norm_num [tC4, Matrix.cons_val_zero, Matrix.cons_val_two, Matrix.vecHead,
    Matrix.vecTail]

/-- C4 amended: on a `Running` tick, a pre-existing track that is not
fused by the association log undergoes exactly one *predict* step
(`updateTime`) — but only when `targets` was non-empty at the start of the
tick; a tick with empty `targets` runs only cleanup, so surviving tracks
are completely unchanged, no predict occurs, and no tracks are born. -/
theorem c4_predict_only_when_targets_nonempty (cfg : Cfg) (now : Nat)
    (assign : List Int) (st st' : TrackerSt) (log : List (Nat × Nat))
    (born : List Nat)
    (h : Tracker.runningSt cfg now assign st = some (st', log, born))
    (j : Nat) (t : Track) (ht : st.tracks.get? j = some t)
    (hfresh : now - t.stamp ≤ cfg.max_time) :
    (st.targets.length ≠ 0 → (∀ c, (j, c) ∉ log) →
      Track.updateTime cfg t ∈ st'.tracks) ∧
    (st.targets.length = 0 →
      t ∈ st'.tracks ∧ log = [] ∧ born = [] ∧ st'.track_cnt = st.track_cnt) := by
  rcases runningSt_cases cfg now assign st st' log born h with
    ⟨hz, h1, h2, h3⟩ | ⟨hne, st2, ha, hst, _⟩
  · constructor
    · intro hcontra
      exact absurd hz hcontra
    · intro _
      refine ⟨?_, h2, h3, by rw [h1]; rfl⟩
      rw [h1, mem_cleanupTracks]
      exact ⟨List.get?_mem ht, le_trans (Nat.mod_le _ _) hfresh⟩
  · constructor
    · intro _ hnl
      have hu : (Tracker.untouchTracks st).tracks.get? j =
          some { t with touched := false } := by
        show (st.tracks.map _).get? j = _
        rw [List.get?_map, ht]
        rfl
      have hspec := associateTracks_spec cfg now assign _ _ _ ha
      have h2 : st2.tracks.get? j = some { t with touched := false } := by
        rw [hspec.2.2.2.2.1 j hnl]
        exact hu
      have hjlt : j < st2.tracks.length := by
        rcases List.get?_eq_some.mp h2 with ⟨hh, _⟩
        exact hh
      obtain ⟨new, hnew, _⟩ :=
        createFold_shape cfg now st2.targets st2.tracks st2.track_cnt
      have h3 : (Tracker.createNewTracks cfg now st2).tracks.get? j =
          some { t with touched := false } := by
        show ((st2.targets.foldl (Tracker.birthStep cfg now)
          (st2.tracks, st2.track_cnt)).1).get? j = _
        rw [hnew, List.get?_append hjlt]
        exact h2
      have h4 : (Tracker.touchTracks cfg
          (Tracker.createNewTracks cfg now st2)).tracks.get? j =
          some (Track.updateTime cfg t) := by
        show ((Tracker.createNewTracks cfg now st2).tracks.map _).get? j = _
        rw [List.get?_map, h3]
        rfl
      rw [hst, mem_cleanupTracks]
      refine ⟨List.get?_mem h4, ?_⟩
      show (now - t.stamp) % 2 ^ 32 ≤ cfg.max_time
      exact le_trans (Nat.mod_le _ _) hfresh
    · intro hz
      exact absurd hz hne

/-- C4 witness: the amended theorem applied to the concrete empty-targets
scenario. -/
theorem c4_predict_witness :
    (stC4.targets.length ≠ 0 → (∀ c, (0, c) ∉ ([] : List (Nat × Nat))) →
      Track.updateTime cfgEx tC4 ∈ stC4.tracks) ∧
    (stC4.targets.length = 0 →
      tC4 ∈ stC4.tracks ∧ ([] : List (Nat × Nat)) = [] ∧ ([] : List Nat) = [] ∧
      stC4.track_cnt = stC4.track_cnt) :=
  c4_predict_only_when_targets_nonempty cfgEx 500 [] stC4 stC4 [] [] rfl 0 tC4
    rfl (by decide)

/-- C7 counterexample: `cleanupTracks` evaluates the age through the
unsigned 32-bit `duration` cast, so a track whose stamp is `2^32` ms older
than the clock — far older than `max_time = 1000` — has wrapped age 0,
survives cleanup, and is posted, where the claim demands its removal and
absence from that tick's emission. -/
theorem c7_counterexample :
    cfgEx.max_time < 2 ^ 32 - tC4.stamp ∧
    Tracker.runningTick cfgEx (2 ^ 32) [] stC4 =
      some (stC4, [], [], [tC4.toBuf]) := by
  constructor
  · decide
  · rfl

/-- C7 amended: every track surviving a `Running` tick has wrapped 32-bit
age `(now - stamp) % 2^32` at most `max_time` at the tick's clock, and the
posted track-list contains exactly images of such surviving tracks — a
track whose *wrapped* age exceeds `max_time` is removed by
`cleanupTracks` before the tick's emission.  (The source casts the age to
`duration<unsigned int, milli>`, so a track whose true age is within
`max_time` of a multiple of `2^32` ms is retained.) -/
theorem c7_wrapped_age_out (cfg : Cfg) (now : Nat) (assign : List Int)
    (st : TrackerSt)
    (r : TrackerSt × List (Nat × Nat) × List Nat × List TrackBuf)
    (h : Tracker.runningTick cfg now assign st = some r) :
    (∀ t ∈ r.1.tracks, (now - t.stamp) % 2 ^ 32 ≤ cfg.max_time) ∧
    (∀ tb ∈ r.2.2.2, ∃ t, t ∈ r.1.tracks ∧ tb = t.toBuf ∧
      (now - t.stamp) % 2 ^ 32 ≤ cfg.max_time) := by
  unfold Tracker.runningTick at h
  cases hs : Tracker.runningSt cfg now assign st with
  | none => rw [hs] at h; exact absurd h (by simp)
  | some p =>
    obtain ⟨st1, log1, born1⟩ := p
    rw [hs] at h
    rw [Option.map_some', Option.some.injEq] at h
    subst h
    have hfresh : ∀ t ∈ st1.tracks, (now - t.stamp) % 2 ^ 32 ≤ cfg.max_time := by
      rcases runningSt_cases cfg now assign st st1 log1 born1 hs with
        ⟨_, hst, _, _⟩ | ⟨_, st2, _, hst, _⟩
      · intro t htm
        rw [hst] at htm
        exact ((mem_cleanupTracks cfg now st t).mp htm).2
      · intro t htm
        rw [hst] at htm
        exact ((mem_cleanupTracks cfg now _ t).mp htm).2
    refine ⟨hfresh, ?_⟩
    intro tb htb
    have : tb ∈ st1.tracks.map Track.toBuf := htb
    rw [List.mem_map] at this
    obtain ⟨t, htm, htb2⟩ := this
    exact ⟨t, htm, htb2.symm, hfresh t htm⟩

/-- C7 witness: the amended theorem at the concrete single-track tick —
the surviving (and posted) track is within the wrapped age-out bound. -/
theorem c7_wrapped_age_out_witness :
    (500 - tC4.stamp) % 2 ^ 32 ≤ cfgEx.max_time :=
  (c7_wrapped_age_out cfgEx 500 [] stC4 (stC4, [], [], [tC4.toBuf]) rfl).1 tC4
    (List.mem_singleton.mpr rfl)

/-- C5: association is one-to-one.  Given a solver output whose
non-negative entries are pairwise distinct (the spec's matching
contract), the fusion log of `associateTracks` pairs distinct tracks
with distinct detections: no track is fused twice and no detection is
consumed twice in a cycle. -/
theorem c5_assignment_one_to_one (cfg : Cfg) (now : Nat) (assign : List Int)
    (st st2 : TrackerSt) (log : List (Nat × Nat))
    (h : Tracker.associateTracks cfg now assign st = some (st2, log))
    (hinj : List.Pairwise (fun a b : Int => a = -1 ∨ b = -1 ∨ a ≠ b) assign) :
    List.Pairwise (fun p q : Nat × Nat => p.1 ≠ q.1 ∧ p.2 ≠ q.2) log := by
  obtain ⟨_, _, hpw, hrec, _, _⟩ := associateTracks_spec cfg now assign st st2 log h
  rw [List.pairwise_iff_get] at hpw ⊢
  intro i j hij
  have hrowlt : (log.get i).1 < (log.get j).1 := hpw i j hij
  refine ⟨Nat.ne_of_lt hrowlt, ?_⟩
  intro hcols
  have hmi : log.get i ∈ log := List.get_mem log i.1 i.2
  have hmj : log.get j ∈ log := List.get_mem log j.1 j.2
  obtain ⟨⟨a1, ha1, ha1n, ha1t⟩, _⟩ := hrec _ hmi
  obtain ⟨⟨a2, ha2, ha2n, ha2t⟩, _⟩ := hrec _ hmj
  have haa : a1 = a2 := by omega
  obtain ⟨hl1, hg1⟩ := List.get?_eq_some.mp ha1
  obtain ⟨hl2, hg2⟩ := List.get?_eq_some.mp ha2
  rw [List.pairwise_iff_get] at hinj
  have hrel := hinj ⟨_, hl1⟩ ⟨_, hl2⟩ (by exact hrowlt)
  rw [hg1, hg2] at hrel
  rcases hrel with h1 | h2 | h3
  · omega
  · omega
  · exact h3 haa

/-- The gate passes for the track born from `pBox` against the co-located
`vBox` detection: the squared centroid distance is `0 ≤ max_dist²`. -/
theorem gate_pTrack_vBox :
    gatePass cfgEx ((Track.ofBox cfgEx 0 1 pBox).distSq vBox.midx vBox.midy) =
      true := by
  unfold gatePass
  rw [decide_eq_true_eq]
  constructor
  · show (0 : ℚ) ≤ (10 : ℚ)
    norm_num
  · show Track.distSq _ _ _ ≤ cfgEx.max_dist ^ 2
    unfold Track.distSq BoxBuf.midx BoxBuf.midy
    show ((100 : ℚ) + 20 / 2 - (Track.ofBox cfgEx 0 1 pBox).X 0) ^ 2 +
      ((100 : ℚ) + 40 / 2 - (Track.ofBox cfgEx 0 1 pBox).X 1) ^ 2 ≤ (10 : ℚ) ^ 2
    have h0 : (Track.ofBox cfgEx 0 1 pBox).X 0 = (100 : ℚ) + 20 / 2 := rfl
    have h1 : (Track.ofBox cfgEx 0 1 pBox).X 1 = (100 : ℚ) + 40 / 2 := rfl
    rw [h0, h1]
    norm_num

/-- The concrete one-track / one-detection association: the solver column
0 for row 0 passes the gate, the `Person` track is fused with the `Vehicle`
detection, and the consumed detection is compacted away. -/
theorem assocC1_eq :
    Tracker.associateTracks cfgEx 5 [0] stC1 =
      some ({ stC1 with
        tracks := [Track.addTarget cfgEx 5 (Track.ofBox cfgEx 0 1 pBox) vBox],
        targets := [] }, [(0, 0)]) := by
  unfold Tracker.associateTracks
  rw [if_pos (by decide)]
  have hloop : Tracker.assocLoop cfgEx 5 stC1.tracks stC1.targets 0 [0] [] =
      some ([Track.addTarget cfgEx 5 (Track.ofBox cfgEx 0 1 pBox) vBox],
        [{ vBox with id := sentinel }], [(0, 0)]) := by
    rw [Tracker.assocLoop]
    rw [if_pos (by decide)]
    show (if gatePass cfgEx ((Track.ofBox cfgEx 0 1 pBox).distSq vBox.midx vBox.midy) = true
      then _ else _) = _
    rw [if_pos gate_pTrack_vBox]
    rw [Tracker.assocLoop]
    rfl
  rw [hloop]
  rfl

/-- C5 witness: the theorem at the concrete one-track / one-detection
association. -/
theorem c5_assignment_witness :
    List.Pairwise (fun p q : Nat × Nat => p.1 ≠ q.1 ∧ p.2 ≠ q.2)
      [((0 : Nat), (0 : Nat))] :=
  c5_assignment_one_to_one cfgEx 5 [0] stC1
    { stC1 with
        tracks := [Track.addTarget cfgEx 5 (Track.ofBox cfgEx 0 1 pBox) vBox],
        targets := [] }
    [(0, 0)] assocC1_eq (by decide)

/-- C6: gating soundness.  Every fusion recorded by `associateTracks`
passed the source's test `sqrt(distSq) ≤ max_dist` against the track's
pre-update filter state; conversely, when the assignment for row `i` has a
centroid distance exceeding `max_dist`, the track is not fused, the
detection is not consumed by any track, and the (unmarked) detection
survives into the post-association `targets` to become a birth. -/
theorem c6_gating_soundness (cfg : Cfg) (now : Nat) (assign : List Int)
    (st st2 : TrackerSt) (log : List (Nat × Nat))
    (h : Tracker.associateTracks cfg now assign st = some (st2, log))
    (hinj : List.Pairwise (fun a b : Int => a = -1 ∨ b = -1 ∨ a ≠ b) assign) :
    (∀ p ∈ log, ∃ t b, st.tracks.get? p.1 = some t ∧
      st.targets.get? p.2 = some b ∧
      Real.sqrt ((t.distSq b.midx b.midy : ℚ) : ℝ) ≤ (cfg.max_dist : ℝ)) ∧
    (∀ (i k : Nat) (a : Int) (t : Track) (b : BoxBuf),
      assign.get? i = some a → 0 ≤ a → a.toNat = k →
      st.tracks.get? i = some t → st.targets.get? k = some b →
      (cfg.max_dist : ℝ) < Real.sqrt ((t.distSq b.midx b.midy : ℚ) : ℝ) →
      (∀ c, (i, c) ∉ log) ∧ (∀ r2, (r2, k) ∉ log) ∧
        (b.id ≠ sentinel → b ∈ st2.targets)) := by
  obtain ⟨_, _, _, hrec, _, hcols⟩ := associateTracks_spec cfg now assign st st2 log h
  constructor
  · intro p hp
    obtain ⟨_, t, b, ht, hb, hg, _⟩ := hrec p hp
    exact ⟨t, b, ht, hb, (gatePass_iff_sqrt cfg _).mp hg⟩
  · intro i k a t b ha han hak ht hb hgt
    have hno_row : ∀ c, (i, c) ∉ log := by
      intro c hmem
      obtain ⟨⟨a', ha', ha'n, ha't⟩, t', b', ht', hb', hg', _⟩ := hrec _ hmem
      have haa : a' = a := Option.some.inj (ha'.symm.trans ha)
      have hck : c = k := by omega
      rw [hck] at hb'
      have hbb : b' = b := Option.some.inj (hb'.symm.trans hb)
      have htt : t' = t := Option.some.inj (ht'.symm.trans ht)
      rw [hbb, htt] at hg'
      exact absurd ((gatePass_iff_sqrt cfg _).mp hg') (not_le.mpr hgt)
    have hno_col : ∀ r2, (r2, k) ∉ log := by
      intro r2 hmem
      by_cases hri : r2 = i
      · rw [hri] at hmem
        exact hno_row k hmem
      · obtain ⟨⟨a2, ha2, ha2n, ha2t⟩, _⟩ := hrec _ hmem
        have haa : a2 = a := by omega
        obtain ⟨hl1, hg1⟩ := List.get?_eq_some.mp ha
        obtain ⟨hl2, hg2⟩ := List.get?_eq_some.mp ha2
        rw [List.pairwise_iff_get] at hinj
        rcases Nat.lt_or_ge i r2 with hlt | hge
        · have hrel := hinj ⟨i, hl1⟩ ⟨r2, hl2⟩ hlt
          rw [hg1, hg2] at hrel
          rcases hrel with h1 | h2 | h3
          · omega
          · omega
          · exact h3 haa.symm
        · have hlt2 : r2 < i := by omega
          have hrel := hinj ⟨r2, hl2⟩ ⟨i, hl1⟩ hlt2
          rw [hg1, hg2] at hrel
          rcases hrel with h1 | h2 | h3
          · omega
          · omega
          · exact h3 haa
    exact ⟨hno_row, hno_col, fun hid => hcols k b hno_col hb hid⟩

/-- C6 witness: the theorem at the concrete association — the recorded
fusion indeed satisfies the real-valued gate. -/
theorem c6_gating_witness :
    ∃ t b, stC1.tracks.get? 0 = some t ∧ stC1.targets.get? 0 = some b ∧
      Real.sqrt ((t.distSq b.midx b.midy : ℚ) : ℝ) ≤ (cfgEx.max_dist : ℝ) :=
  (c6_gating_soundness cfgEx 5 [0] stC1
    { stC1 with
        tracks := [Track.addTarget cfgEx 5 (Track.ofBox cfgEx 0 1 pBox) vBox],
        targets := [] }
    [(0, 0)] assocC1_eq (by decide)).1 (0, 0) (List.mem_singleton.mpr rfl)

/-- C1: the code fuses across categories.  In the spec's own scenario —
one `Person` track, one `Vehicle` detection at the identical location —
the only spec-compliant Hungarian output for the 1×1 (all-forbidden) cost
matrix is `[0]`, and the post-solve gate re-computes the raw centroid
distance instead of consulting the `1e7` sentinel, so `addTarget` is
invoked: the `Vehicle` detection is fused into the `Person` track (log
`[(0,0)]`), no track is born, and the lone surviving track still has id 1
and category `Person` while its raw box now comes from the `Vehicle`
detection. -/
theorem c1_cross_category_fusion :
    (∀ a, SolverOk 1 1 a → a = [0]) ∧
    tC1u.type = BoxType.kPerson ∧ vBox.type = BoxType.kVehicle ∧
    Tracker.runningSt cfgEx 5 [0] stC1 =
      some (⟨[Track.addTarget cfgEx 5 tC1u vBox], [], 1⟩, [(0, 0)], []) ∧
    (Track.addTarget cfgEx 5 tC1u vBox).type = BoxType.kPerson ∧
    (Track.addTarget cfgEx 5 tC1u vBox).id = 1 ∧
    (Track.addTarget cfgEx 5 tC1u vBox).x = (vBox.x : ℚ) := by
  refine ⟨?_, rfl, rfl, ?_, rfl, rfl, rfl⟩
  · rintro a ⟨hlen, hrange, _, hcomp⟩
    cases a with
    | nil => simp at hlen
    | cons z tl =>
      cases tl with
      | cons w tw => simp at hlen
      | nil =>
        have hz1 := hrange z (by simp)
        have hz2 := hcomp (by omega) z (by simp)
        have hz0 : z = 0 := by
          rcases hz1 with h1 | ⟨hn, hlt⟩
          · exact absurd h1 hz2
          · omega
        rw [hz0]
  · unfold Tracker.runningSt
    rw [if_pos (by decide)]
    have hu : Tracker.untouchTracks stC1 = ⟨[tC1u], [vBox], 1⟩ := rfl
    rw [hu]
    have hassoc : Tracker.associateTracks cfgEx 5 [0] ⟨[tC1u], [vBox], 1⟩ =
        some (⟨[Track.addTarget cfgEx 5 tC1u vBox], [], 1⟩, [(0, 0)]) := by
      unfold Tracker.associateTracks
      rw [if_pos (by decide)]
      have hloop : Tracker.assocLoop cfgEx 5 [tC1u] [vBox] 0 [0] [] =
          some ([Track.addTarget cfgEx 5 tC1u vBox],
            [{ vBox with id := sentinel }], [(0, 0)]) := by
        rw [Tracker.assocLoop, if_pos (by decide)]
        show (if gatePass cfgEx (tC1u.distSq vBox.midx vBox.midy) = true
          then _ else _) = _
        rw [if_pos (show gatePass cfgEx (tC1u.distSq vBox.midx vBox.midy) = true
          from gate_pTrack_vBox)]
        rw [Tracker.assocLoop]
        rfl
      rw [hloop]
      rfl
    rw [hassoc]
    rfl

/-- C2: the post-solve loop reads `targets_[-1]`.  For two tracks and one
detection the spec-compliant solver output `[-1, 0]` makes the first loop
iteration compute `targets_[k]` with `k = -1` before any check — an
out-of-bounds vector access (undefined behaviour), modelled as `none`. -/
theorem c2_out_of_bounds_read :
    SolverOk 2 1 [-1, 0] ∧
    Tracker.runningSt cfgEx 5 [-1, 0] stC2 = none := by
  constructor
  · decide
  · rfl

/-- Ingesting `[det8]` into an empty-inbox state replaces the inbox. -/
theorem c8msg_eq (c : Nat) :
    (Tracker.addMessage cfg8 ⟨[], [], c⟩ [det8] true).2 = ⟨[], [det8], c⟩ := rfl

/-- One even tick of the C8 driver from an empty track list: association
is skipped (no tracks), one track is born with id `(c+1) % 2^32`, it is
touched at construction, and it survives cleanup (its stamp is the tick's
clock). -/
theorem c8tick_eq (k c : Nat) :
    Tracker.runningSt cfg8 (2000 * k) [] ⟨[], [det8], c⟩ =
      some (⟨[Track.ofBox cfg8 (2000 * k) ((c + 1) % 2 ^ 32) det8], [],
        (c + 1) % 2 ^ 32⟩, [], [(c + 1) % 2 ^ 32]) := by
  unfold Tracker.runningSt
  rw [if_pos (by simp)]
  have hassoc : Tracker.associateTracks cfg8 (2000 * k) []
      (Tracker.untouchTracks ⟨[], [det8], c⟩) = some (⟨[], [det8], c⟩, []) := by
    unfold Tracker.associateTracks
    rw [if_neg (by simp [Tracker.untouchTracks])]
    rfl
  rw [hassoc]
  dsimp only
  have hclean : Tracker.cleanupTracks cfg8 (2000 * k)
      (Tracker.touchTracks cfg8 (Tracker.createNewTracks cfg8 (2000 * k) ⟨[], [det8], c⟩)) =
      ⟨[Track.ofBox cfg8 (2000 * k) ((c + 1) % 2 ^ 32) det8], [], (c + 1) % 2 ^ 32⟩ := by
    have hct : Tracker.touchTracks cfg8 (Tracker.createNewTracks cfg8 (2000 * k) ⟨[], [det8], c⟩) =
        ⟨[Track.ofBox cfg8 (2000 * k) ((c + 1) % 2 ^ 32) det8], [], (c + 1) % 2 ^ 32⟩ := rfl
    rw [hct]
    unfold Tracker.cleanupTracks
    simp [List.filter, Track.ofBox, cfg8, Nat.sub_self]
  rw [hclean]
  rfl

/-- One odd tick of the C8 driver: nothing is ingested, and with
`max_time = 0` the single track (stamped on the previous tick, 1000 ms
ago) ages out. -/
theorem c8odd_eq (k c : Nat) (tr : Track) (hstamp : tr.stamp = 2000 * k) :
    c8odd k ⟨[tr], [], c⟩ = some ⟨[], [], c⟩ := by
  unfold c8odd
  have hmsg : (Tracker.addMessage cfg8 ⟨[tr], [], c⟩ [] true).2 = ⟨[tr], [], c⟩ := rfl
  rw [hmsg]
  unfold Tracker.runningSt
  rw [if_neg (by simp)]
  have hclean : Tracker.cleanupTracks cfg8 (2000 * k + 1000) ⟨[tr], [], c⟩ =
      ⟨[], [], c⟩ := by
    unfold Tracker.cleanupTracks
    have hf : (2000 * k + 1000 - tr.stamp) % 4294967296 = 1000 := by
      rw [hstamp]; omega
    simp [List.filter, hf, cfg8]
  rw [hclean]
  rfl

/-- After `k` two-tick cycles the C8 driver is back to an empty track list
with the 32-bit birth counter at `k % 2^32`. -/
theorem c8state_eq (k : Nat) : c8state k = some ⟨[], [], k % 2 ^ 32⟩ := by
  induction k with
  | zero => rfl
  | succ k ih =>
    show (c8state k).bind _ = _
    rw [ih]
    rw [Option.some_bind]
    have he : c8even k ⟨[], [], k % 2 ^ 32⟩ =
        some ⟨[Track.ofBox cfg8 (2000 * k) ((k % 2 ^ 32 + 1) % 2 ^ 32) det8], [],
          (k % 2 ^ 32 + 1) % 2 ^ 32⟩ := by
      unfold c8even
      rw [c8msg_eq, c8tick_eq]
      rfl
    rw [he, Option.some_bind]
    rw [c8odd_eq k ((k % 2 ^ 32 + 1) % 2 ^ 32) _ rfl]
    rw [Nat.mod_add_mod]

/-- The id born on cycle `k` of the C8 driver. -/
theorem c8bornId_eq (k : Nat) :
    c8bornId k = some ((k % 2 ^ 32 + 1) % 2 ^ 32) := by
  unfold c8bornId
  rw [c8state_eq, Option.some_bind, c8msg_eq, c8tick_eq, Option.some_bind]
  rfl

/-- C8 counterexample: driving one Tracker instance through enough frames
wraps the 32-bit birth counter.  Cycle 0 births id 1; cycle `2^32 - 1`
births id 0 (a *later* birth with a *smaller* id, refuting strict
increase); and cycle `2^32` births id 1 again — the same id as cycle 0,
given to a different track, refuting id uniqueness for the process
lifetime. -/
theorem c8_counterexample :
    c8bornId 0 = some 1 ∧
    c8bornId (2 ^ 32 - 1) = some 0 ∧
    c8bornId (2 ^ 32) = some 1 ∧
    (0 : Nat) < 2 ^ 32 - 1 ∧ (2 ^ 32 - 1 : Nat) < 2 ^ 32 := by
  refine ⟨?_, ?_, ?_, by norm_num, by norm_num⟩
  · rw [c8bornId_eq]
    decide
  · rw [c8bornId_eq]
    decide
  · rw [c8bornId_eq]
    decide

/-- C8 amended: as long as the total number of births stays below `2^32`
(the wrap-around point of the `unsigned int` counter `track_cnt_`), the
ids given to tracks at birth over any frame sequence processed by one
Tracker instance are the consecutive integers following the initial
counter — in particular strictly increasing in creation order and never
assigned twice. -/
theorem c8_ids_strictly_increase_below_wrap (cfg : Cfg) (st : TrackerSt)
    (frames : List Frame) (st' : TrackerSt) (borns : List Nat)
    (h : Tracker.runTicks cfg st frames = some (st', borns))
    (hbound : st.track_cnt + borns.length < 2 ^ 32) :
    borns = List.range' (st.track_cnt + 1) borns.length ∧
    List.Pairwise (· < ·) borns ∧
    st'.track_cnt = st.track_cnt + borns.length := by
  induction frames generalizing st st' borns with
  | nil =>
    simp only [Tracker.runTicks, Option.some.injEq, Prod.mk.injEq] at h
    obtain ⟨h1, h2⟩ := h
    subst h1; subst h2
    exact ⟨rfl, List.Pairwise.nil, by simp⟩
  | cons f rest ih =>
    simp only [Tracker.runTicks] at h
    cases hr : Tracker.runningSt cfg f.now f.assign
        (Tracker.addMessage cfg st f.boxes f.lockOk).2 with
    | none => rw [hr] at h; exact absurd h (by simp)
    | some p =>
      obtain ⟨st2, log2, born2⟩ := p
      rw [hr] at h
      dsimp only at h
      cases hrest : Tracker.runTicks cfg st2 rest with
      | none => rw [hrest] at h; exact absurd h (by simp)
      | some q =>
        obtain ⟨st3, borns3⟩ := q
        rw [hrest] at h
        dsimp only at h
        rw [Option.some.injEq, Prod.mk.injEq] at h
        obtain ⟨h1, h2⟩ := h
        subst h1
        subst h2
        have hcnt0 : (Tracker.addMessage cfg st f.boxes f.lockOk).2.track_cnt =
            st.track_cnt := by
          cases f.lockOk <;> rfl
        rw [List.length_append] at hbound
        have hb2 := runningSt_born cfg f.now f.assign _ st2 log2 born2 hr
          (by rw [hcnt0]; omega)
        rw [hcnt0] at hb2
        obtain ⟨hborn2, hcnt2⟩ := hb2
        obtain ⟨hborn3, hpw3, hcnt3⟩ := ih st2 st3 borns3 hrest (by omega)
        rw [hcnt2] at hborn3 hcnt3
        constructor
        · rw [List.length_append]
          conv_lhs => rw [hborn2, hborn3]
          have := List.range'_append (st.track_cnt + 1) born2.length borns3.length 1
          rw [one_mul] at this
          rw [show st.track_cnt + 1 + born2.length =
            st.track_cnt + born2.length + 1 from by omega] at this
          rw [this]
          congr 1
          omega
        · constructor
          · rw [hborn2, hborn3]
            have := List.range'_append (st.track_cnt + 1) born2.length borns3.length 1
            rw [one_mul] at this
            rw [show st.track_cnt + 1 + born2.length =
              st.track_cnt + born2.length + 1 from by omega] at this
            rw [this]
            exact List.pairwise_lt_range' ..
          · rw [hcnt3, List.length_append]
            omega

/-- C8 witness: a one-frame run from the empty tracker births exactly
id 1. -/
theorem c8_ids_witness :
    stEmpty.track_cnt + [1].length < 2 ^ 32 ∧
    ([1] : List Nat) = List.range' (stEmpty.track_cnt + 1) [1].length ∧
    List.Pairwise (· < ·) ([1] : List Nat) :=
  ⟨by decide,
    (c8_ids_strictly_increase_below_wrap cfgEx stEmpty [⟨[pBox], true, [], 10⟩]
      ⟨[Track.ofBox cfgEx 10 1 pBox], [], 1⟩ [1] rfl (by decide)).1,
    (c8_ids_strictly_increase_below_wrap cfgEx stEmpty [⟨[pBox], true, [], 10⟩]
      ⟨[Track.ofBox cfgEx 10 1 pBox], [], 1⟩ [1] rfl (by decide)).2.1⟩

end Detector
